import Mathlib

/-!
Shallow embedding of the usameter event-metering core: API-key permission
checks, quota enforcement (Redis fast path and database fallback), rate
limiting, the batch ingest pipeline, and the tiered-pricing invoice builder.
Each definition is translated from the corresponding TypeScript source file.
-/

namespace Usameter

/-! ## Credential validation (src/src/server/services/apiKeys.ts) -/

structure ValidatedApiKey where
  organizationId : String
  permissions : List String
deriving DecidableEq, Repr

inductive ApiKeyValidationResult where
  | valid (key : ValidatedApiKey)
  | invalid (reason : String)
deriving DecidableEq, Repr

/-- Embedding of `hasPermission` (apiKeys.ts lines 55-61): an invalid
validation result never has a permission; a valid one is a case-sensitive
membership test in the stored permissions array. -/
def hasPermission (result : ApiKeyValidationResult) (permission : String) : Bool :=
  match result with
  | .invalid _ => false
  | .valid k => k.permissions.contains permission

/-! ## Quota engine (src/src/server/db/redis.ts `checkQuotaEnhanced`,
src/unnamed/part_007 `checkQuota`) -/

inductive QuotaEnforcementMode where
  | hard
  | soft
  | disabled
deriving DecidableEq, Repr

/-- JavaScript truthiness on an optional numeric field: `x ? f(x) : fallback`
treats both `undefined` and `0` as absent. -/
def jsTruthyQ : Option ℚ → Option ℚ
  | some x => if x = 0 then none else some x
  | none => none

structure QuotaEnhancedOptions where
  softLimit : Option ℚ
  hardLimit : ℚ
  enforcementMode : QuotaEnforcementMode
  gracePeriodEnd : Option ℤ
  overageAllowed : Option ℚ
deriving DecidableEq, Repr

structure QuotaCheckResult where
  allowed : Bool
  current : ℚ
  limit : ℚ
  softLimit : Option ℚ
  warning : Bool
  enforcementMode : QuotaEnforcementMode
deriving DecidableEq, Repr

/-- Embedding of `checkQuotaEnhanced` (redis.ts lines 232-304).
`counterValue` is the Redis period counter read at the start of the call
(`GET quotaKey`, 0 when the key is absent); the second component of the
result is the counter value after the call (the code increments it via
`INCRBYFLOAT quantity` exactly on the paths that allow). -/
def checkQuotaEnhanced (quantity counterValue : ℚ) (now : ℤ)
    (options : QuotaEnhancedOptions) : QuotaCheckResult × ℚ :=
  let currentUsage := counterValue
  let projectedUsage := currentUsage + quantity
  let base : QuotaCheckResult :=
    { allowed := true, current := currentUsage, limit := options.hardLimit,
      softLimit := options.softLimit, warning := false,
      enforcementMode := options.enforcementMode }
  if options.enforcementMode = .disabled then
    ({ base with current := projectedUsage }, counterValue + quantity)
  else
    let inGracePeriod : Bool := match options.gracePeriodEnd with
      | some g => decide (now < g)
      | none => false
    let warning : Bool := match jsTruthyQ options.softLimit with
      | some s => decide (s < projectedUsage)
      | none => false
    let rejected : Bool :=
      match options.enforcementMode with
      | .hard => decide (options.hardLimit < projectedUsage) && !inGracePeriod
      | .soft =>
        let maxAllowed := options.hardLimit + (jsTruthyQ options.overageAllowed).getD 0
        decide (maxAllowed < projectedUsage) && !inGracePeriod
      | .disabled => false
    if rejected then
      ({ base with allowed := false, warning := warning }, counterValue)
    else
      ({ base with warning := warning, current := projectedUsage },
        counterValue + quantity)

structure QuotaLimitRec where
  limitValue : ℚ
  softLimitValue : Option ℚ
  enforcementMode : QuotaEnforcementMode
  gracePeriodEnd : Option ℤ
  overageAllowed : Option ℚ
  resetAt : ℤ
deriving DecidableEq, Repr

/-- Option building performed by `checkQuota` (part_007 lines 52-63):
`quotaLimit.softLimitValue ? Number(...) : undefined` and the same for
`overageAllowed`, so a stored value of 0 becomes `undefined`. -/
def toEnhancedOptions (q : QuotaLimitRec) : QuotaEnhancedOptions :=
  { softLimit := jsTruthyQ q.softLimitValue
    hardLimit := q.limitValue
    enforcementMode := q.enforcementMode
    gracePeriodEnd := q.gracePeriodEnd
    overageAllowed := jsTruthyQ q.overageAllowed }

structure UsageEventRow where
  id : ℕ
  tenantId : String
  organizationId : String
  eventType : String
  quantity : ℚ
  timestamp : ℤ
  idempotencyKey : Option String
  invoiceId : Option ℕ
  billedAt : Option ℤ
deriving DecidableEq, Repr

/-- The store-side aggregation used by the database fallback of `checkQuota`
(part_007 lines 67-80): `SUM(quantity)` over the events of the pair with
`timestamp >= resetAt`. -/
def usageSumSince (events : List UsageEventRow) (tenantId eventType : String)
    (resetAt : ℤ) : ℚ :=
  ((events.filter (fun e =>
      e.tenantId == tenantId && e.eventType == eventType &&
        decide (resetAt ≤ e.timestamp))).map (fun e => e.quantity)).sum

structure QuotaFallbackResult where
  allowed : Bool
  current : ℚ
  limit : ℚ
  softLimit : Option ℚ
  warning : Bool
  enforcementMode : QuotaEnforcementMode
deriving DecidableEq, Repr

/-- Embedding of the database fallback branch of `checkQuota`
(part_007 lines 65-109): `current` is recomputed as the event sum since
`resetAt`, the decision matrix is re-implemented inline, and the warning is
computed for every enforcement mode. -/
def checkQuotaDbFallback (events : List UsageEventRow) (tenantId eventType : String)
    (quantity : ℚ) (now : ℤ) (q : QuotaLimitRec) : QuotaFallbackResult :=
  let current := usageSumSince events tenantId eventType q.resetAt
  let limit := q.limitValue
  let softLimit := jsTruthyQ q.softLimitValue
  let projectedUsage := current + quantity
  let inGracePeriod : Bool := match q.gracePeriodEnd with
    | some g => decide (now < g)
    | none => false
  let allowed : Bool :=
    match q.enforcementMode with
    | .hard => decide (projectedUsage ≤ limit) || inGracePeriod
    | .soft =>
      let maxAllowed := limit + (jsTruthyQ q.overageAllowed).getD 0
      decide (projectedUsage ≤ maxAllowed) || inGracePeriod
    | .disabled => true
  { allowed := allowed, current := projectedUsage, limit := limit,
    softLimit := softLimit,
    warning := match softLimit with
      | some s => decide (s < projectedUsage)
      | none => false,
    enforcementMode := q.enforcementMode }

/-- The grace-period condition of the spec: a grace deadline is configured
and `now` is before it. -/
def graceActive (now : ℤ) (g : Option ℤ) : Prop := ∃ t, g = some t ∧ now < t

/-! ## Rate limiting (src/src/server/db/redis.ts `checkRateLimit`) -/

inductive RateWindow where
  | second
  | minute
  | hour
deriving DecidableEq, Repr

def windowMillis : RateWindow → ℕ
  | .second => 1000
  | .minute => 60000
  | .hour => 3600000

/-- Start of the next window for a granularity, in milliseconds since the
epoch: the code builds it from the current time with
`setSeconds(getSeconds()+1, 0)`, `setMinutes(getMinutes()+1, 0, 0)` or
`setHours(getHours()+1, 0, 0, 0)`. -/
def nextWindowStart (w : RateWindow) (now : ℕ) : ℕ :=
  (now / windowMillis w + 1) * windowMillis w

structure RateLimitConfig where
  perSecond : Option ℕ
  perMinute : Option ℕ
  perHour : Option ℕ
deriving DecidableEq, Repr

structure RateCheck where
  window : RateWindow
  limit : ℕ
  ttl : ℕ
deriving DecidableEq, Repr

/-- JS truthiness on an optional integer limit: `if (limits.perSecond)`
skips both `undefined` and `0`. -/
def jsTruthyN : Option ℕ → Option ℕ
  | some 0 => none
  | x => x

/-- The `checks` array built by `checkRateLimit` (redis.ts lines 350-364),
in the fixed order second, minute, hour. -/
def buildChecks (limits : RateLimitConfig) : List RateCheck :=
  (match jsTruthyN limits.perSecond with
    | some l => [⟨.second, l, 2⟩]
    | none => []) ++
  (match jsTruthyN limits.perMinute with
    | some l => [⟨.minute, l, 120⟩]
    | none => []) ++
  (match jsTruthyN limits.perHour with
    | some l => [⟨.hour, l, 7200⟩]
    | none => [])

structure RateLimitOutcome where
  allowed : Bool
  remaining : ℕ∞
  limit : ℕ∞
  resetAt : ℕ
  retryAfter : Option ℕ
deriving DecidableEq

/-- The rejection result built inside the check loop (redis.ts lines
391-413): `remaining = 0` and `retryAfter = ceil((resetAt - now) / 1000)`
seconds until the start of the violated granularity's next window. -/
def rejectOutcome (c : RateCheck) (now : ℕ) : RateLimitOutcome :=
  let resetAt := nextWindowStart c.window now
  { allowed := false, remaining := 0, limit := (c.limit : ℕ∞),
    resetAt := resetAt, retryAfter := some ((resetAt - now + 999) / 1000) }

/-- The `allowed: true, remaining: Infinity, limit: Infinity` value used both
when no limit is configured and as the initial most-restrictive tracker. -/
def unlimitedOutcome (now : ℕ) : RateLimitOutcome :=
  { allowed := true, remaining := ⊤, limit := ⊤, resetAt := now,
    retryAfter := none }

/-- The check loop of `checkRateLimit` (redis.ts lines 386-437): return the
rejection for the first bucket whose count has reached its limit, otherwise
keep the most restrictive remaining across the configured windows. -/
def rlLoop (counts : RateWindow → ℕ) (now : ℕ) :
    List RateCheck → RateLimitOutcome → RateLimitOutcome
  | [], best => best
  | c :: rest, best =>
    if c.limit ≤ counts c.window then rejectOutcome c now
    else
      let remaining := c.limit - counts c.window - 1
      rlLoop counts now rest
        (if (remaining : ℕ∞) < best.remaining then
          { allowed := true, remaining := (remaining : ℕ∞),
            limit := (c.limit : ℕ∞), resetAt := nextWindowStart c.window now,
            retryAfter := none }
        else best)

/-- Embedding of `checkRateLimit` (redis.ts lines 337-449). `counts` maps a
granularity to its current bucket value (`GET`, 0 when absent); the second
component of the result holds the bucket values after the call — the code
reads all buckets first and increments them (pipelined `INCR`) only when
every configured limit passes. -/
def checkRateLimit (limits : RateLimitConfig) (counts : RateWindow → ℕ)
    (now : ℕ) : RateLimitOutcome × (RateWindow → ℕ) :=
  let checks := buildChecks limits
  if checks.isEmpty then (unlimitedOutcome now, counts)
  else
    let r := rlLoop counts now checks (unlimitedOutcome now)
    if r.allowed then
      (r, fun w =>
        if checks.any (fun c => c.window == w) then counts w + 1 else counts w)
    else (r, counts)

/-! ## Circuit breaker and fail-open admission (redis.ts
`withRedisFallback`, src/unnamed/part_004 `POST`) -/

structure BreakerState where
  isOpen : Bool
  failures : ℕ
deriving DecidableEq, Repr

def circuitBreakerThreshold : ℕ := 5

/-- Embedding of `withRedisFallback` (redis.ts lines 37-69): `redisOp` is
`none` when the Redis operation throws and `some v` when it returns `v`.
The fallback value is returned whenever the breaker is open or the
operation fails; the call itself never raises. -/
def withRedisFallback {α : Type} (b : BreakerState) (redisOp : Option α)
    (dbFallback : α) : α × BreakerState :=
  if b.isOpen then (dbFallback, b)
  else
    match redisOp with
    | some v => (v, ⟨false, 0⟩)
    | none =>
      let failures := b.failures + 1
      (dbFallback,
        if circuitBreakerThreshold ≤ failures then ⟨true, failures⟩
        else ⟨false, failures⟩)

inductive AdmissionOutcome where
  | proceed (result : RateLimitOutcome)
  | rateLimited (result : RateLimitOutcome)
deriving DecidableEq

/-- The fail-open value the ingest route supplies as the database fallback
of the rate-limit check (part_004 line 297): allowed, with
`limit = remaining = Infinity`. -/
def failOpenOutcome (now : ℕ) : RateLimitOutcome :=
  { allowed := true, remaining := ⊤, limit := ⊤, resetAt := now,
    retryAfter := none }

/-- The rate-limit admission step of `POST /api/v1/events` (part_004 lines
289-323): run `checkRateLimit` under `withRedisFallback` with the fail-open
fallback, then answer 429 only when the outcome is not allowed. -/
def admitIngest (b : BreakerState) (redisResult : Option RateLimitOutcome)
    (now : ℕ) : AdmissionOutcome × BreakerState :=
  let step := withRedisFallback b redisResult (failOpenOutcome now)
  (if step.1.allowed then .proceed step.1 else .rateLimited step.1, step.2)

/-! ## Ingest pipeline (src/unnamed/part_004) -/

structure ParsedEvent where
  event_type : String
  tenant_id : String
  quantity : ℚ
  timestamp : Option ℤ
  idempotency_key : Option String
deriving DecidableEq, Repr

structure QuotaGroup where
  tenantId : String
  eventType : String
  quantity : ℚ
  externalTenantId : String
deriving DecidableEq, Repr

/-- One step of the grouping in `checkQuotas` (part_004 lines 156-171): merge
a quantity into the group keyed by (internal tenant id, event type), or
append a new group. -/
def addGroup (acc : List QuotaGroup) (tenantId eventType : String) (qty : ℚ)
    (ext : String) : List QuotaGroup :=
  match acc with
  | [] => [⟨tenantId, eventType, qty, ext⟩]
  | g :: rest =>
    if g.tenantId == tenantId && g.eventType == eventType then
      ⟨g.tenantId, g.eventType, g.quantity + qty, g.externalTenantId⟩ :: rest
    else g :: addGroup rest tenantId eventType qty ext

/-- The pre-summed (tenant, eventType) groups of a batch, paired with the
internal tenant id resolved for each event. -/
def groupEvents (events : List (ParsedEvent × String)) : List QuotaGroup :=
  events.foldl
    (fun acc pe => addGroup acc pe.2 pe.1.event_type pe.1.quantity pe.1.tenant_id)
    []

/-- One `checkQuota` call on the Redis fast path (part_007 lines 22-63): a
pair without a configured QuotaLimit is allowed without touching any
counter; otherwise `checkQuotaEnhanced` runs against the pair's period
counter. Returns the allowed flag and the pair's counter value after the
call. -/
def checkQuotaFast (quotaConfig : String → String → Option QuotaLimitRec)
    (counters : String → String → ℚ) (now : ℤ) (tenantId eventType : String)
    (qty : ℚ) : Bool × ℚ :=
  match quotaConfig tenantId eventType with
  | none => (true, counters tenantId eventType)
  | some q =>
    let r := checkQuotaEnhanced qty (counters tenantId eventType) now
      (toEnhancedOptions q)
    (r.1.allowed, r.2)

/-- The batch quota check `checkQuotas` (part_004 lines 150-188): each
(tenant, eventType) group is checked once with its pre-summed quantity, and
failing groups are collected as violations. Each check reads and updates
only its own per-pair counter, so the parallel `Promise.all` is modelled
sequentially. -/
def checkQuotas (quotaConfig : String → String → Option QuotaLimitRec)
    (now : ℤ) :
    List QuotaGroup → (String → String → ℚ) →
      List QuotaGroup × (String → String → ℚ)
  | [], counters => ([], counters)
  | g :: rest, counters =>
    let r := checkQuotaFast quotaConfig counters now g.tenantId g.eventType
      g.quantity
    let counters2 := fun t e =>
      if t == g.tenantId && e == g.eventType then r.2 else counters t e
    let next := checkQuotas quotaConfig now rest counters2
    (if r.1 then next.1 else g :: next.1, next.2)

/-- The duplicate filter applied before the quota check (part_004 lines
360-365): events whose idempotency key was found by the lookup are excluded
from the quota groups. -/
def freshEvents (events : List ParsedEvent) (duplicates : String → Option ℕ) :
    List ParsedEvent :=
  events.filter (fun e =>
    match e.idempotency_key with
    | some k => (duplicates k).isNone
    | none => true)

/-- The unique-constraint test on `(organizationId, idempotencyKey)` that
`prisma.usageEvent.create` enforces (schema
`@@unique([organizationId, idempotencyKey])`). -/
def uniqueViolation (store : List UsageEventRow) (orgId : String)
    (key : Option String) : Bool :=
  match key with
  | none => false
  | some k => store.any (fun e =>
      e.organizationId == orgId && e.idempotencyKey == some k)

structure ProcessedEvent where
  id : ℕ
  tenant_id : String
  event_type : String
  idempotency_key : Option String
  deduplicated : Bool
deriving DecidableEq, Repr

/-- Embedding of `processSingleEvent` (part_004 lines 193-252): a duplicate
found in the precomputed map short-circuits to the existing event id with
`deduplicated = true` and no insert; otherwise `prisma.usageEvent.create`
runs, and an insert that violates the unique constraint raises — the
function has no recovery branch for that error. -/
def processSingleEvent (event : ParsedEvent) (organizationId : String)
    (tenantMap : String → Option String) (duplicates : String → Option ℕ)
    (store : List UsageEventRow) (newId : ℕ) (now : ℤ) :
    Except Unit (ProcessedEvent × List UsageEventRow) :=
  let dup := match event.idempotency_key with
    | some k => duplicates k
    | none => none
  match dup with
  | some existingId =>
    .ok (⟨existingId, event.tenant_id, event.event_type, event.idempotency_key,
      true⟩, store)
  | none =>
    if uniqueViolation store organizationId event.idempotency_key then
      .error ()
    else
      .ok (⟨newId, event.tenant_id, event.event_type, event.idempotency_key,
          false⟩,
        store ++ [⟨newId, (tenantMap event.tenant_id).getD "", organizationId,
          event.event_type, event.quantity, event.timestamp.getD now,
          event.idempotency_key, none, none⟩])

inductive SingleResponse where
  | success (event_id : ℕ) (deduplicated : Bool)
  | serverError
deriving DecidableEq, Repr

/-- The single-event path of `POST /api/v1/events`: `processSingleEvent`
runs inside the route's try/catch, and the catch block answers
`500 Internal server error` (part_004 lines 409-415). -/
def postSingleEvent (event : ParsedEvent) (organizationId : String)
    (tenantMap : String → Option String) (duplicates : String → Option ℕ)
    (store : List UsageEventRow) (newId : ℕ) (now : ℤ) :
    SingleResponse × List UsageEventRow :=
  match processSingleEvent event organizationId tenantMap duplicates store newId
      now with
  | .ok (p, store2) => (.success p.id p.deduplicated, store2)
  | .error _ => (.serverError, store)

/-- Embedding of `checkIdempotency` (part_004 lines 99-145): for each key
present in the batch, consult the Redis cache first (behind
`withRedisFallback`, whose fallback yields `null`), then fall back to one
store query over `(organizationId, idempotencyKey)` for uncached keys. -/
def checkIdempotency (cache : String → Option ℕ) (store : List UsageEventRow)
    (organizationId : String) (events : List ParsedEvent) :
    String → Option ℕ :=
  fun k =>
    if events.any (fun e => e.idempotency_key == some k) then
      match cache k with
      | some id => some id
      | none =>
        match store.find? (fun e =>
            e.organizationId == organizationId &&
              e.idempotencyKey == some k) with
        | some e => some e.id
        | none => none
    else none

inductive BatchOutcome where
  | quotaExceeded (violations : List QuotaGroup)
  | accepted
deriving DecidableEq, Repr

/-- Rows appended by step 5 of the batch path when the quota check passes:
one created row per fresh event, with consecutive server-assigned ids. -/
def persistRows (organizationId : String) (tenantMap : String → Option String)
    (now : ℤ) : List ParsedEvent → ℕ → List UsageEventRow
  | [], _ => []
  | e :: rest, n =>
    ⟨n, (tenantMap e.tenant_id).getD "", organizationId, e.event_type,
      e.quantity, e.timestamp.getD now, e.idempotency_key, none, none⟩ ::
      persistRows organizationId tenantMap now rest (n + 1)

/-- Steps 3-5 of the batch path of `POST /api/v1/events` (part_004 lines
359-400): group the fresh events by (tenant, eventType) with pre-summed
quantities, check quotas once per group, answer `403 QUOTA_EXCEEDED` with
the violations array when any group fails — before any persistence — and
only otherwise persist the batch. -/
def postBatchQuotaStage (events : List ParsedEvent) (organizationId : String)
    (tenantMap : String → Option String) (duplicates : String → Option ℕ)
    (quotaConfig : String → String → Option QuotaLimitRec)
    (counters : String → String → ℚ) (now : ℤ)
    (store : List UsageEventRow) (baseId : ℕ) :
    BatchOutcome × (String → String → ℚ) × List UsageEventRow :=
  let fresh := freshEvents events duplicates
  let groups := groupEvents (fresh.map
    (fun e => (e, (tenantMap e.tenant_id).getD "")))
  let res := checkQuotas quotaConfig now groups counters
  if res.1.isEmpty then
    (.accepted, res.2,
      store ++ persistRows organizationId tenantMap now fresh baseId)
  else (.quotaExceeded res.1, res.2, store)

/-! ## Invoice builder (src/src/server/trpc/routers/billing.ts
`generateInvoice`) -/

structure UsageSnapshotRow where
  tenantId : String
  snapshotDate : ℤ
  eventType : String
  totalQuantity : ℚ
deriving DecidableEq, Repr

structure PricingTierRow where
  eventType : String
  tierLevel : ℤ
  minQuantity : ℚ
  maxQuantity : Option ℚ
  unitPrice : ℚ
  effectiveFrom : ℤ
  effectiveTo : Option ℤ
deriving DecidableEq, Repr

structure TierBreakdownEntry where
  tierLevel : ℤ
  quantity : ℚ
  unitPrice : ℚ
  subtotal : ℚ
deriving DecidableEq, Repr

structure InvoiceLineItem where
  eventType : String
  quantity : ℚ
  unitPrice : ℚ
  totalPrice : ℚ
  tierBreakdown : List TierBreakdownEntry
deriving DecidableEq, Repr

inductive InvoiceStatus where
  | draft
  | pending
  | paid
  | overdue
  | cancelled
deriving DecidableEq, Repr

structure Invoice where
  id : ℕ
  tenantId : String
  periodStart : ℤ
  periodEnd : ℤ
  status : InvoiceStatus
  subtotal : ℚ
  tax : ℚ
  total : ℚ
  dueDate : ℤ
  lineItems : List InvoiceLineItem
deriving DecidableEq, Repr

/-- One step of the snapshot grouping (billing.ts lines 118-139): merge a
snapshot quantity into the accumulator entry of its event type, keeping
first-occurrence order like a JavaScript object with string keys. -/
def addUsage (acc : List (String × ℚ)) (eventType : String) (q : ℚ) :
    List (String × ℚ) :=
  match acc with
  | [] => [(eventType, q)]
  | (k, v) :: rest =>
    if k == eventType then (k, v + q) :: rest
    else (k, v) :: addUsage rest eventType q

/-- The per-event-type usage totals of the period's snapshots
(billing.ts lines 118-139). -/
def usageByEventType (snaps : List UsageSnapshotRow) : List (String × ℚ) :=
  snaps.foldl (fun acc s => addUsage acc s.eventType s.totalQuantity) []

/-- The tier walk of `generateInvoice` (billing.ts lines 164-223), with
`maxQuantity = none` playing the role of `Infinity`. Arguments: remaining
tiers, quantity processed so far, accumulated price, accumulated
breakdown. -/
def walkTiers (q : ℚ) :
    List PricingTierRow → ℚ → ℚ → List TierBreakdownEntry →
      ℚ × List TierBreakdownEntry
  | [], _, total, acc => (total, acc)
  | tier :: rest, processed, total, acc =>
    if q ≤ processed then (total, acc)
    else
      if processed < tier.minQuantity then
        let quantityInTier := match tier.maxQuantity with
          | none => q - tier.minQuantity
          | some m => min (q - tier.minQuantity) (m - tier.minQuantity)
        if 0 < quantityInTier ∧ tier.minQuantity < q then
          let actualQuantity := min quantityInTier (q - tier.minQuantity)
          if 0 < actualQuantity then
            walkTiers q rest (tier.minQuantity + actualQuantity)
              (total + actualQuantity * tier.unitPrice)
              (acc ++ [⟨tier.tierLevel, actualQuantity, tier.unitPrice,
                actualQuantity * tier.unitPrice⟩])
          else walkTiers q rest processed total acc
        else walkTiers q rest processed total acc
      else
        let quantityInTier := match tier.maxQuantity with
          | none => q - processed
          | some m => min (q - processed) (max 0 (m - processed))
        if 0 < quantityInTier then
          walkTiers q rest (processed + quantityInTier)
            (total + quantityInTier * tier.unitPrice)
            (acc ++ [⟨tier.tierLevel, quantityInTier, tier.unitPrice,
              quantityInTier * tier.unitPrice⟩])
        else walkTiers q rest processed total acc

/-- Line-item construction for one event type with total quantity `q`
(billing.ts lines 156-245): walk the tiers; if no tier matched while tiers
exist, fall back to pricing the full quantity at the first tier's unit
price; `unitPrice` is the display-only average `totalPrice / q`. -/
def computeLineItem (eventType : String) (relevantTiers : List PricingTierRow)
    (q : ℚ) : InvoiceLineItem :=
  let w := walkTiers q relevantTiers 0 0 []
  match relevantTiers with
  | [] =>
    { eventType := eventType, quantity := q,
      unitPrice := if 0 < q then w.1 / q else 0, totalPrice := w.1,
      tierBreakdown := w.2 }
  | t :: _ =>
    if w.2 = [] then
      { eventType := eventType, quantity := q,
        unitPrice := if 0 < q then (q * t.unitPrice) / q else 0,
        totalPrice := q * t.unitPrice,
        tierBreakdown := [⟨t.tierLevel, q, t.unitPrice, q * t.unitPrice⟩] }
    else
      { eventType := eventType, quantity := q,
        unitPrice := if 0 < q then w.1 / q else 0, totalPrice := w.1,
        tierBreakdown := w.2 }

/-- Tier applicability filter of the Prisma query (billing.ts lines
101-115): `effectiveFrom <= periodEnd` and `effectiveTo` null or
`>= periodStart`. -/
def tierEffective (periodStart periodEnd : ℤ) (t : PricingTierRow) : Bool :=
  decide (t.effectiveFrom ≤ periodEnd) &&
    (match t.effectiveTo with
     | none => true
     | some e => decide (periodStart ≤ e))

/-- Stable insertion into a tier list ordered ascending by `tierLevel`. -/
def insertTier (t : PricingTierRow) : List PricingTierRow → List PricingTierRow
  | [] => [t]
  | u :: rest =>
    if t.tierLevel ≤ u.tierLevel then t :: u :: rest
    else u :: insertTier t rest

/-- Ascending stable sort by `tierLevel` (the `orderBy` of the query and the
`.sort` on line 159). -/
def sortTiers : List PricingTierRow → List PricingTierRow
  | [] => []
  | t :: rest => insertTier t (sortTiers rest)

/-- The per-event-type tier selection (billing.ts lines 157-159): filter by
event type, sort ascending by tier level. -/
def relevantTiersFor (tiers : List PricingTierRow) (eventType : String) :
    List PricingTierRow :=
  sortTiers (tiers.filter (fun t => t.eventType == eventType))

structure BillingState where
  events : List UsageEventRow
  snapshots : List UsageSnapshotRow
  tiers : List PricingTierRow
  invoices : List Invoice
deriving DecidableEq, Repr

/-- The snapshot query of `generateInvoice` (billing.ts lines 90-98):
snapshots of the tenant with `snapshotDate` in `[periodStart, periodEnd]`. -/
def periodSnapshots (s : BillingState) (tenantId : String) (a b : ℤ) :
    List UsageSnapshotRow :=
  s.snapshots.filter (fun sn =>
    sn.tenantId == tenantId && decide (a ≤ sn.snapshotDate) &&
      decide (sn.snapshotDate ≤ b))

/-- The selection condition of the back-link `updateMany`
(billing.ts lines 299-312): same tenant, timestamp in the period, and
`invoiceId` still null. -/
def billEventSelected (tenantId : String) (a b : ℤ) (e : UsageEventRow) :
    Bool :=
  e.tenantId == tenantId && decide (a ≤ e.timestamp) &&
    decide (e.timestamp ≤ b) && e.invoiceId == none

/-- The per-row effect of the back-link `updateMany`: selected rows get
`invoiceId = newInvoice.id` and `billedAt = now`. -/
def billEventUpdate (tenantId : String) (a b now : ℤ) (newId : ℕ)
    (e : UsageEventRow) : UsageEventRow :=
  if billEventSelected tenantId a b e then
    { e with invoiceId := some newId, billedAt := some now }
  else e

/-- The line items of `generateInvoice` (billing.ts lines 141-245): one per
event type with positive snapshot usage, priced by the tier walk. -/
def invoiceLineItems (s : BillingState) (tenantId : String) (a b : ℤ) :
    List InvoiceLineItem :=
  let pricingTiers := sortTiers (s.tiers.filter (tierEffective a b))
  (usageByEventType (periodSnapshots s tenantId a b)).filterMap (fun u =>
    if 0 < u.2 then
      some (computeLineItem u.1 (relevantTiersFor pricingTiers u.1) u.2)
    else none)

/-- Embedding of `generateInvoice` (billing.ts lines 60-318): line items are
computed from the usage snapshots of `[periodStart, periodEnd]`, subtotal,
10 percent tax, total and due date are derived, and in the same transaction
every usage event of the tenant with timestamp in the period and `invoiceId`
still null is back-linked to the new invoice. `newId` stands for the
generated invoice id and `now` for the commit time. -/
def generateInvoice (s : BillingState) (tenantId : String)
    (periodStart periodEnd now : ℤ) (newId : ℕ) :
    BillingState × Invoice :=
  let lineItems := invoiceLineItems s tenantId periodStart periodEnd
  let subtotal := (lineItems.map (fun li => li.totalPrice)).sum
  let tax := subtotal * (1 / 10)
  let invoice : Invoice :=
    { id := newId, tenantId := tenantId, periodStart := periodStart,
      periodEnd := periodEnd, status := .draft, subtotal := subtotal,
      tax := tax, total := subtotal + tax,
      dueDate := periodEnd + 30 * 24 * 60 * 60 * 1000,
      lineItems := lineItems }
  let events2 := s.events.map (billEventUpdate tenantId periodStart periodEnd
    now newId)
  ({ s with events := events2, invoices := s.invoices ++ [invoice] }, invoice)

/-- Sum of the quantities of the events already linked to invoice `invId`,
restricted to one event type: the audit-invariant aggregation
`SUM(quantity) WHERE invoiceId = I.id GROUP BY eventType`. -/
def linkedSum : List UsageEventRow → ℕ → String → ℚ
  | [], _, _ => 0
  | e :: rest, invId, et =>
    (if e.invoiceId == some invId && e.eventType == et then e.quantity
     else 0) + linkedSum rest invId et

/-- Sum of the quantities of the not-yet-billed events of the tenant in the
period, restricted to one event type. -/
def unbilledSum : List UsageEventRow → String → ℤ → ℤ → String → ℚ
  | [], _, _, _, _ => 0
  | e :: rest, tenantId, a, b, et =>
    (if billEventSelected tenantId a b e && e.eventType == et then e.quantity
     else 0) + unbilledSum rest tenantId a b et

/-- Sum of the snapshot quantities of one event type. -/
def snapsSum : List UsageSnapshotRow → String → ℚ
  | [], _ => 0
  | sn :: rest, et =>
    (if sn.eventType == et then sn.totalQuantity else 0) + snapsSum rest et

/-- Quantity recorded on an invoice's line item for an event type (first
match), 0 when the invoice has no line item for it. -/
def lineItemQty : List InvoiceLineItem → String → ℚ
  | [], _ => 0
  | i :: items, et => if i.eventType == et then i.quantity else lineItemQty items et

/-- First-match lookup in the usage accumulator, 0 when absent. -/
def lookupUsage : List (String × ℚ) → String → ℚ
  | [], _ => 0
  | (k, v) :: rest, et => if k == et then v else lookupUsage rest et

/-- The tier walk described by the spec: each tier `[minQ, maxQ)` consumes
exactly `max(0, min(Q, maxQ) - max(processed, minQ))` at the tier's unit
price, with `processed` starting at 0 and advancing by the consumed amount,
stopping once `processed >= Q`. -/
def specWalkTiers (q : ℚ) :
    List PricingTierRow → ℚ → ℚ → List TierBreakdownEntry →
      ℚ × List TierBreakdownEntry
  | [], _, total, acc => (total, acc)
  | tier :: rest, processed, total, acc =>
    if q ≤ processed then (total, acc)
    else
      let upper := match tier.maxQuantity with
        | none => q
        | some m => min q m
      let consumed := max 0 (upper - max processed tier.minQuantity)
      if 0 < consumed then
        specWalkTiers q rest (processed + consumed)
          (total + consumed * tier.unitPrice)
          (acc ++ [⟨tier.tierLevel, consumed, tier.unitPrice,
            consumed * tier.unitPrice⟩])
      else specWalkTiers q rest processed total acc

/-- The data-model invariant on pricing tiers: sorted by tier level they
form a contiguous non-overlapping partition of the quantity axis starting
at `x`, with only the last tier allowed to be unbounded. -/
def contiguousFrom (x : ℚ) : List PricingTierRow → Bool
  | [] => true
  | t :: rest =>
    decide (t.minQuantity = x) &&
      match t.maxQuantity with
      | none => rest.isEmpty
      | some m => decide (x < m) && contiguousFrom m rest

end Usameter

namespace Usameter

lemma jsTruthyQ_getD_zero (x : Option ℚ) : (jsTruthyQ x).getD 0 = x.getD 0 := by
  cases x with
  | none => rfl
  | some v => by_cases h : v = 0 <;> simp [jsTruthyQ, h]

lemma jsTruthyQ_idem (x : Option ℚ) : jsTruthyQ (jsTruthyQ x) = jsTruthyQ x := by
  cases x with
  | none => rfl
  | some v => by_cases h : v = 0 <;> simp [jsTruthyQ, h]

/-! ## Theorems about the credential validator -/

/-- C10: `hasPermission` returns false for every invalid validation result,
and for a valid result it returns exactly the case-sensitive membership of
the permission string in the stored permissions array. -/
theorem c10_hasPermission_membership (result : ApiKeyValidationResult)
    (permission : String) :
    hasPermission result permission = true ↔
      ∃ k, result = ApiKeyValidationResult.valid k ∧ permission ∈ k.permissions := by
  cases result with
  | valid k => simp [hasPermission]
  | invalid r => simp [hasPermission]

/-! ## Theorems about the quota engine -/

/-- C3 counterexample: in DISABLED mode `checkQuotaEnhanced` returns before
the soft-limit check, so with `softLimitValue = 5` and `projected = 11 > 5`
the result carries `warning = false`, contradicting the claim that
`warning = true` exactly when `softLimitValue != null` and
`projected > softLimitValue`. -/
theorem c3_warning_disabled_counterexample :
    (checkQuotaEnhanced 1 10 0
        { softLimit := some 5, hardLimit := 100,
          enforcementMode := .disabled, gracePeriodEnd := none,
          overageAllowed := none }).1.warning = false ∧
      ((5 : ℚ) < 10 + 1) := by
  refine ⟨rfl, by norm_num⟩

/-- C3 amended: for a quota check with a configured limit whose
`softLimitValue` is not the degenerate value 0, letting
`projected = current + qty`: DISABLED always allows and still increments the
period counter; HARD allows iff `projected ≤ limit` or grace; SOFT allows iff
`projected ≤ limit + overageAllowed` or grace; and `warning = true` exactly
when the mode is not DISABLED, `softLimitValue != null` and
`projected > softLimitValue`. -/
theorem c3_quota_decision_matrix (quantity counterValue : ℚ) (now : ℤ)
    (options : QuotaEnhancedOptions) (hs : options.softLimit ≠ some 0) :
    ((options.enforcementMode = .disabled →
        (checkQuotaEnhanced quantity counterValue now options).1.allowed = true ∧
        (checkQuotaEnhanced quantity counterValue now options).2 =
          counterValue + quantity) ∧
     (options.enforcementMode = .hard →
        ((checkQuotaEnhanced quantity counterValue now options).1.allowed = true ↔
          counterValue + quantity ≤ options.hardLimit ∨
            graceActive now options.gracePeriodEnd)) ∧
     (options.enforcementMode = .soft →
        ((checkQuotaEnhanced quantity counterValue now options).1.allowed = true ↔
          counterValue + quantity ≤ options.hardLimit + options.overageAllowed.getD 0 ∨
            graceActive now options.gracePeriodEnd)) ∧
     ((checkQuotaEnhanced quantity counterValue now options).1.warning = true ↔
        options.enforcementMode ≠ .disabled ∧
          ∃ s, options.softLimit = some s ∧ s < counterValue + quantity)) := by
  obtain ⟨sl, hl, mode, gp, oa⟩ := options
  simp only [ne_eq] at hs
  cases mode <;>
    rcases gp with _ | g <;>
      rcases sl with _ | s <;>
        rcases oa with _ | o <;>
          simp_all [checkQuotaEnhanced, jsTruthyQ, graceActive, not_lt] <;>
          split_ifs <;> simp_all [not_lt] <;>
            first
              | tauto
              | linarith
              | (by_cases hg2 : now < g <;> simp_all [not_lt] <;> tauto)

/-- Witness for C3 amended: a concrete HARD-mode check under the limit is
allowed. -/
theorem c3_quota_decision_matrix_witness :
    (checkQuotaEnhanced 1 10 0
      { softLimit := some 5, hardLimit := 100, enforcementMode := .hard,
        gracePeriodEnd := none, overageAllowed := none }).1.allowed = true := by
  have h := c3_quota_decision_matrix 1 10 0
    { softLimit := some 5, hardLimit := 100, enforcementMode := .hard,
      gracePeriodEnd := none, overageAllowed := none } (by decide)
  exact (h.2.1 rfl).mpr (Or.inl (by norm_num))

/-- C9 counterexample: with a DISABLED-mode quota, soft limit 5 and an event
history summing to 10, ingesting quantity 1 yields `warning = false` on the
cache fast path (which returns before the soft-limit check) but
`warning = true` on the store fallback (which computes the warning for every
mode), so the two decisions differ. -/
theorem c9_warning_divergence_counterexample :
    (usageSumSince [⟨1, "t1", "o1", "api", 10, 5, none, none, none⟩]
        "t1" "api" 0 = 10) ∧
    (checkQuotaEnhanced 1
        (usageSumSince [⟨1, "t1", "o1", "api", 10, 5, none, none, none⟩]
          "t1" "api" 0) 0
        (toEnhancedOptions
          ⟨100, some 5, .disabled, none, none, 0⟩)).1.warning = false ∧
    (checkQuotaDbFallback [⟨1, "t1", "o1", "api", 10, 5, none, none, none⟩]
        "t1" "api" 1 0 ⟨100, some 5, .disabled, none, none, 0⟩).warning = true := by
  norm_num [usageSumSince, checkQuotaEnhanced, checkQuotaDbFallback,
    toEnhancedOptions, jsTruthyQ, List.filter, List.sum_cons, List.sum_nil]

/-- C9 amended: when the fast-path counter agrees with the store-side sum of
event quantities since `resetAt`, the fast path and the store fallback return
the same `allowed` outcome for every enforcement mode, and the same `warning`
flag whenever the mode is not DISABLED (in DISABLED mode the fast path never
warns while the fallback may). -/
theorem c9_fast_path_refines_fallback (events : List UsageEventRow)
    (tenantId eventType : String) (q : QuotaLimitRec) (quantity : ℚ) (now : ℤ)
    (counterValue : ℚ)
    (hc : counterValue = usageSumSince events tenantId eventType q.resetAt) :
    ((checkQuotaEnhanced quantity counterValue now (toEnhancedOptions q)).1.allowed =
        (checkQuotaDbFallback events tenantId eventType quantity now q).allowed) ∧
    (q.enforcementMode ≠ .disabled →
      (checkQuotaEnhanced quantity counterValue now (toEnhancedOptions q)).1.warning =
        (checkQuotaDbFallback events tenantId eventType quantity now q).warning) := by
  subst hc
  obtain ⟨lim, sl, mode, gp, oa, ra⟩ := q
  cases mode <;>
    rcases gp with _ | g <;>
      rcases sl with _ | s <;>
        rcases oa with _ | o <;>
          simp_all [checkQuotaEnhanced, checkQuotaDbFallback, toEnhancedOptions,
            jsTruthyQ] <;>
          split_ifs <;> simp_all [not_lt] <;>
            first
              | tauto
              | linarith
              | (by_cases hg2 : now < g <;> simp_all [not_lt] <;> tauto)

/-- Witness for C9 amended at a concrete HARD-mode configuration. -/
theorem c9_fast_path_refines_fallback_witness :
    (checkQuotaEnhanced 1
        (usageSumSince [⟨1, "t1", "o1", "api", 10, 5, none, none, none⟩]
          "t1" "api" 0) 0
        (toEnhancedOptions ⟨100, some 5, .hard, none, none, 0⟩)).1.allowed =
      (checkQuotaDbFallback [⟨1, "t1", "o1", "api", 10, 5, none, none, none⟩]
        "t1" "api" 1 0 ⟨100, some 5, .hard, none, none, 0⟩).allowed :=
  (c9_fast_path_refines_fallback
    [⟨1, "t1", "o1", "api", 10, 5, none, none, none⟩] "t1" "api"
    ⟨100, some 5, .hard, none, none, 0⟩ 1 0 _ rfl).1

/-! ## Theorems about the rate limiter -/

lemma rlLoop_first_violation (counts : RateWindow → ℕ) (now : ℕ) :
    ∀ (checks : List RateCheck) (best : RateLimitOutcome) (c : RateCheck),
      checks.find? (fun c2 => decide (c2.limit ≤ counts c2.window)) = some c →
      rlLoop counts now checks best = rejectOutcome c now := by
  intro checks
  induction checks with
  | nil => intro best c h; simp [List.find?] at h
  | cons hd tl ih =>
    intro best c h
    by_cases hv : hd.limit ≤ counts hd.window
    · rw [List.find?_cons_of_pos _ (by simpa using hv)] at h
      obtain rfl : hd = c := by simpa using h
      simp [rlLoop, hv]
    · rw [List.find?_cons_of_neg _ (by simpa using hv)] at h
      simp only [rlLoop, if_neg hv]
      exact ih _ c h

lemma rlLoop_all_pass (counts : RateWindow → ℕ) (now : ℕ) :
    ∀ (checks : List RateCheck) (best : RateLimitOutcome),
      (∀ c ∈ checks, counts c.window < c.limit) →
      best.allowed = true →
      (rlLoop counts now checks best).allowed = true ∧
      (rlLoop counts now checks best).remaining =
        checks.foldl
          (fun m c => min m ((c.limit - counts c.window - 1 : ℕ) : ℕ∞))
          best.remaining := by
  intro checks
  induction checks with
  | nil => intro best _ hb; simpa [rlLoop] using hb
  | cons hd tl ih =>
    intro best hall hb
    have hv : ¬hd.limit ≤ counts hd.window := by
      simpa [not_le] using hall hd (by simp)
    simp only [rlLoop, if_neg hv, List.foldl_cons]
    by_cases hlt :
        ((hd.limit - counts hd.window - 1 : ℕ) : ℕ∞) < best.remaining
    · have := ih
        ⟨true, ((hd.limit - counts hd.window - 1 : ℕ) : ℕ∞), (hd.limit : ℕ∞),
          nextWindowStart hd.window now, none⟩
        (fun c hc => hall c (by simp [hc])) rfl
      rw [if_pos hlt]
      refine ⟨this.1, ?_⟩
      rw [this.2]
      congr 1
      exact (min_eq_right hlt.le).symm
    · have := ih best (fun c hc => hall c (by simp [hc])) hb
      rw [if_neg hlt]
      refine ⟨this.1, ?_⟩
      rw [this.2]
      congr 1
      exact (min_eq_left (not_lt.mp hlt)).symm

/-- C7: a rate-limit admission first reads all configured bucket counts
without incrementing; if some bucket has reached its limit the result is the
rejection for the first such granularity — `allowed = false`,
`remaining = 0`, `retryAfter = ceil(ms until the next window start / 1000)` —
and no bucket is incremented; otherwise the request is allowed, every
configured bucket is incremented by one, and the reported remaining is the
most restrictive (minimum) remaining across the configured windows. -/
theorem c7_check_rate_limit (limits : RateLimitConfig)
    (counts : RateWindow → ℕ) (now : ℕ) :
    (∀ c : RateCheck,
      (buildChecks limits).find?
          (fun c2 => decide (c2.limit ≤ counts c2.window)) = some c →
      checkRateLimit limits counts now = (rejectOutcome c now, counts) ∧
      (rejectOutcome c now).allowed = false ∧
      (rejectOutcome c now).remaining = 0 ∧
      (rejectOutcome c now).retryAfter =
        some ((nextWindowStart c.window now - now + 999) / 1000)) ∧
    ((∀ c ∈ buildChecks limits, counts c.window < c.limit) →
      (checkRateLimit limits counts now).1.allowed = true ∧
      (checkRateLimit limits counts now).1.remaining =
        (buildChecks limits).foldl
          (fun m c => min m ((c.limit - counts c.window - 1 : ℕ) : ℕ∞)) ⊤ ∧
      (∀ w, (checkRateLimit limits counts now).2 w =
        if (buildChecks limits).any (fun c => c.window == w) then counts w + 1
        else counts w)) := by
  constructor
  · intro c hc
    have hi : (buildChecks limits).isEmpty = false := by
      rcases hcs : buildChecks limits with _ | ⟨hd, tl⟩
      · rw [hcs] at hc; simp [List.find?] at hc
      · simp
    have hr := rlLoop_first_violation counts now (buildChecks limits)
      (unlimitedOutcome now) c hc
    refine ⟨?_, rfl, rfl, rfl⟩
    simp [checkRateLimit, hi, hr, rejectOutcome]
  · intro hall
    rcases hcs : buildChecks limits with _ | ⟨hd, tl⟩
    · simp [checkRateLimit, hcs, unlimitedOutcome]
    · have hall2 : ∀ c ∈ buildChecks limits, counts c.window < c.limit := hall
      have h := rlLoop_all_pass counts now (buildChecks limits)
        (unlimitedOutcome now) hall2 rfl
      simp only [checkRateLimit, hcs] at h ⊢
      simp only [List.isEmpty_cons, if_neg (by simp : ¬false = true)]
      rw [if_pos h.1]
      exact ⟨h.1, h.2, fun w => rfl⟩

/-- Witness for C7: with a per-second limit of 5 and a bucket count of 3 the
request is admitted. -/
theorem c7_check_rate_limit_witness :
    (checkRateLimit ⟨some 5, none, none⟩ (fun _ => 3) 0).1.allowed = true :=
  ((c7_check_rate_limit ⟨some 5, none, none⟩ (fun _ => 3) 0).2
    (by decide)).1

/-! ## Theorems about fail-open admission -/

/-- C8: when the circuit breaker is open or the Redis rate-limit operation
throws, the admission step of the ingest route returns the fail-open outcome
— `allowed = true` with `limit = remaining = Infinity` — and proceeds with
the request instead of surfacing an error response. -/
theorem c8_fail_open (b : BreakerState) (redisResult : Option RateLimitOutcome)
    (now : ℕ) (h : b.isOpen = true ∨ redisResult = none) :
    (admitIngest b redisResult now).1 =
      AdmissionOutcome.proceed (failOpenOutcome now) ∧
    (failOpenOutcome now).allowed = true ∧
    (failOpenOutcome now).limit = ⊤ ∧
    (failOpenOutcome now).remaining = ⊤ := by
  rcases h with h | h
  · refine ⟨?_, rfl, rfl, rfl⟩
    simp [admitIngest, withRedisFallback, h, failOpenOutcome]
  · subst h
    refine ⟨?_, rfl, rfl, rfl⟩
    by_cases hb : b.isOpen <;>
      simp [admitIngest, withRedisFallback, hb, failOpenOutcome]

/-- Witness for C8 with the breaker open. -/
theorem c8_fail_open_witness :
    (admitIngest ⟨true, 5⟩ none 0).1 =
      AdmissionOutcome.proceed (failOpenOutcome 0) :=
  (c8_fail_open ⟨true, 5⟩ none 0 (Or.inl rfl)).1

/-! ## Theorems about the batch quota check -/

lemma checkQuotaEnhanced_rejected_counter (quantity counterValue : ℚ) (now : ℤ)
    (options : QuotaEnhancedOptions)
    (h : (checkQuotaEnhanced quantity counterValue now options).1.allowed = false) :
    (checkQuotaEnhanced quantity counterValue now options).2 = counterValue := by
  obtain ⟨sl, hl, mode, gp, oa⟩ := options
  cases mode <;> simp only [checkQuotaEnhanced] at h ⊢ <;>
    split_ifs at h ⊢ <;> simp_all

lemma checkQuotaFast_rejected_counter
    (quotaConfig : String → String → Option QuotaLimitRec)
    (counters : String → String → ℚ) (now : ℤ) (t e : String) (q : ℚ)
    (h : (checkQuotaFast quotaConfig counters now t e q).1 = false) :
    (checkQuotaFast quotaConfig counters now t e q).2 = counters t e := by
  unfold checkQuotaFast at h ⊢
  rcases hc : quotaConfig t e with _ | qr
  · simp [hc] at h
  · simp only [hc] at h ⊢
    exact checkQuotaEnhanced_rejected_counter _ _ _ _ (by simpa using h)

lemma checkQuotas_violations_subset
    (quotaConfig : String → String → Option QuotaLimitRec) (now : ℤ) :
    ∀ (gs : List QuotaGroup) (counters : String → String → ℚ),
      ∀ g ∈ (checkQuotas quotaConfig now gs counters).1, g ∈ gs := by
  intro gs
  induction gs with
  | nil => intro counters g hg; simp [checkQuotas] at hg
  | cons hd tl ih =>
    intro counters g hg
    simp only [checkQuotas] at hg
    by_cases hr : (checkQuotaFast quotaConfig counters now hd.tenantId
        hd.eventType hd.quantity).1
    · rw [if_pos hr] at hg
      exact List.mem_cons_of_mem _ (ih _ g hg)
    · rw [if_neg hr] at hg
      rcases List.mem_cons.mp hg with rfl | hg2
      · exact List.mem_cons_self _ _
      · exact List.mem_cons_of_mem _ (ih _ g hg2)

lemma checkQuotas_counter_untouched
    (quotaConfig : String → String → Option QuotaLimitRec) (now : ℤ) :
    ∀ (gs : List QuotaGroup) (counters : String → String → ℚ) (t e : String),
      (∀ g ∈ gs, ¬(g.tenantId = t ∧ g.eventType = e)) →
      (checkQuotas quotaConfig now gs counters).2 t e = counters t e := by
  intro gs
  induction gs with
  | nil => intro counters t e _; rfl
  | cons hd tl ih =>
    intro counters t e hall
    simp only [checkQuotas]
    rw [ih _ t e (fun g hg => hall g (List.mem_cons_of_mem _ hg))]
    have hne : ¬(hd.tenantId = t ∧ hd.eventType = e) :=
      hall hd (List.mem_cons_self _ _)
    have : (t == hd.tenantId && e == hd.eventType) = false := by
      by_cases h1 : t = hd.tenantId <;> by_cases h2 : e = hd.eventType <;>
        simp_all <;> exact hne ⟨h1.symm, h2.symm⟩
    simp [this]

/-- Key list of a group list, used to state that grouping produces at most
one group per (tenant, eventType). -/
def groupKeys (gs : List QuotaGroup) : List (String × String) :=
  gs.map (fun g => (g.tenantId, g.eventType))

@[simp] lemma groupKeys_nil : groupKeys [] = [] := rfl

@[simp] lemma groupKeys_cons (g : QuotaGroup) (gs : List QuotaGroup) :
    groupKeys (g :: gs) = (g.tenantId, g.eventType) :: groupKeys gs := rfl

lemma addGroup_keys (acc : List QuotaGroup) (t e : String) (q : ℚ) (x : String) :
    groupKeys (addGroup acc t e q x) =
      if (t, e) ∈ groupKeys acc then groupKeys acc
      else groupKeys acc ++ [(t, e)] := by
  induction acc with
  | nil => simp [addGroup, groupKeys]
  | cons hd tl ih =>
    by_cases h1 : hd.tenantId = t ∧ hd.eventType = e
    · have hcond : (hd.tenantId == t && hd.eventType == e) = true := by
        simp [h1.1, h1.2]
      simp [addGroup, hcond, h1.1, h1.2]
    · have hcond : (hd.tenantId == t && hd.eventType == e) = false := by
        rcases not_and_or.mp h1 with h | h <;> simp [h]
      have hne : ((t, e) = (hd.tenantId, hd.eventType)) ↔ False := by
        constructor
        · intro hc
          rw [Prod.ext_iff] at hc
          exact h1 ⟨hc.1.symm, hc.2.symm⟩
        · exact False.elim
      simp only [addGroup, hcond, Bool.false_eq_true, if_false, groupKeys_cons,
        List.mem_cons, hne, false_or, ih]
      by_cases hmem : (t, e) ∈ groupKeys tl <;> simp [hmem]

lemma addGroup_keys_nodup (acc : List QuotaGroup) (t e : String) (q : ℚ)
    (x : String) (h : (groupKeys acc).Nodup) :
    (groupKeys (addGroup acc t e q x)).Nodup := by
  rw [addGroup_keys]
  split_ifs with hmem
  · exact h
  · simpa [List.nodup_append] using ⟨h, hmem⟩

lemma groupEvents_keys_nodup (events : List (ParsedEvent × String)) :
    (groupKeys (groupEvents events)).Nodup := by
  suffices h : ∀ acc : List QuotaGroup, (groupKeys acc).Nodup →
      (groupKeys (events.foldl
        (fun acc pe =>
          addGroup acc pe.2 pe.1.event_type pe.1.quantity pe.1.tenant_id)
        acc)).Nodup by
    exact h [] (by simp [groupKeys])
  induction events with
  | nil => intro acc hacc; simpa using hacc
  | cons hd tl ih =>
    intro acc hacc
    exact ih _ (addGroup_keys_nodup _ _ _ _ _ hacc)

lemma checkQuotas_violation_counter
    (quotaConfig : String → String → Option QuotaLimitRec) (now : ℤ) :
    ∀ (gs : List QuotaGroup) (counters : String → String → ℚ),
      (groupKeys gs).Nodup →
      ∀ g ∈ (checkQuotas quotaConfig now gs counters).1,
        (checkQuotas quotaConfig now gs counters).2 g.tenantId g.eventType =
          counters g.tenantId g.eventType := by
  intro gs
  induction gs with
  | nil => intro counters _ g hg; simp [checkQuotas] at hg
  | cons hd tl ih =>
    intro counters hnd g hg
    have hnd2 : (groupKeys tl).Nodup := (List.nodup_cons.mp hnd).2
    have hdkey : (hd.tenantId, hd.eventType) ∉ groupKeys tl :=
      (List.nodup_cons.mp hnd).1
    simp only [checkQuotas] at hg ⊢
    by_cases hr : (checkQuotaFast quotaConfig counters now hd.tenantId
        hd.eventType hd.quantity).1
    · rw [if_pos hr] at hg
      have hmem : g ∈ tl := checkQuotas_violations_subset _ _ _ _ g hg
      have := ih _ hnd2 g hg
      rw [this]
      have hne : ¬(g.tenantId = hd.tenantId ∧ g.eventType = hd.eventType) := by
        intro hcontra
        exact hdkey (by
          simpa [groupKeys, Prod.ext_iff, hcontra.1, hcontra.2] using
            List.mem_map_of_mem (fun g2 => (g2.tenantId, g2.eventType)) hmem)
      have : (g.tenantId == hd.tenantId && g.eventType == hd.eventType) = false := by
        by_cases h1 : g.tenantId = hd.tenantId <;>
          by_cases h2 : g.eventType = hd.eventType <;> simp_all
      simp [this]
    · rw [if_neg hr] at hg
      rcases List.mem_cons.mp hg with rfl | hg2
      · rw [checkQuotas_counter_untouched _ _ _ _ _ _ (fun g2 hg2 hcontra => by
          exact hdkey (by
            simpa [groupKeys, Prod.ext_iff, hcontra.1, hcontra.2] using
              List.mem_map_of_mem (fun g3 => (g3.tenantId, g3.eventType)) hg2))]
        have hbe : (g.tenantId == g.tenantId && g.eventType == g.eventType) = true := by
          simp
        simp only [hbe, if_true]
        exact checkQuotaFast_rejected_counter _ _ _ _ _ _ (by simpa using hr)
      · have hmem : g ∈ tl := checkQuotas_violations_subset _ _ _ _ g hg2
        have := ih _ hnd2 g hg2
        rw [this]
        have hne : (g.tenantId == hd.tenantId && g.eventType == hd.eventType) = false := by
          by_cases h1 : g.tenantId = hd.tenantId <;>
            by_cases h2 : g.eventType = hd.eventType <;> simp_all
          exact hdkey (by
            simpa [groupKeys, Prod.ext_iff, h1, h2] using
              List.mem_map_of_mem (fun g2 => (g2.tenantId, g2.eventType)) hmem)
        simp [hne]

/-- C4 counterexample: a batch of two events for the same tenant, where
event type "a" has headroom (HARD limit 100) and event type "b" violates its
HARD limit 0. The batch is rejected with 403 QUOTA_EXCEEDED and nothing is
persisted, but the counter of the passing group ("a") has already been
incremented from 0 to 1, contradicting the claim that no quota counter for
any (tenant, eventType) in the request is incremented. -/
theorem c4_counter_increment_counterexample :
    (postBatchQuotaStage
        [⟨"a", "t1", 1, none, none⟩, ⟨"b", "t1", 1, none, none⟩] "o"
        (fun _ => some "T1") (fun _ => none)
        (fun t e =>
          if t == "T1" && e == "a" then
            some ⟨100, none, .hard, none, none, 0⟩
          else if t == "T1" && e == "b" then
            some ⟨0, none, .hard, none, none, 0⟩
          else none)
        (fun _ _ => 0) 0 [] 10).1 =
      BatchOutcome.quotaExceeded [⟨"T1", "b", 1, "t1"⟩] ∧
    (postBatchQuotaStage
        [⟨"a", "t1", 1, none, none⟩, ⟨"b", "t1", 1, none, none⟩] "o"
        (fun _ => some "T1") (fun _ => none)
        (fun t e =>
          if t == "T1" && e == "a" then
            some ⟨100, none, .hard, none, none, 0⟩
          else if t == "T1" && e == "b" then
            some ⟨0, none, .hard, none, none, 0⟩
          else none)
        (fun _ _ => 0) 0 [] 10).2.2 = [] ∧
    (postBatchQuotaStage
        [⟨"a", "t1", 1, none, none⟩, ⟨"b", "t1", 1, none, none⟩] "o"
        (fun _ => some "T1") (fun _ => none)
        (fun t e =>
          if t == "T1" && e == "a" then
            some ⟨100, none, .hard, none, none, 0⟩
          else if t == "T1" && e == "b" then
            some ⟨0, none, .hard, none, none, 0⟩
          else none)
        (fun _ _ => 0) 0 [] 10).2.1 "T1" "a" = 1 := by
  refine ⟨?_, ?_, ?_⟩ <;>
    simp [postBatchQuotaStage, freshEvents, groupEvents, addGroup, checkQuotas,
      checkQuotaFast, checkQuotaEnhanced, toEnhancedOptions, jsTruthyQ,
      persistRows]

/-- C4 amended: when the pre-summed quantity of at least one
(tenantId, eventType) group of a batch fails its quota check, the response
is 403 QUOTA_EXCEEDED with the violations array, no event from the batch is
persisted, and the counter of every violating group is unchanged — but the
counters of groups that passed their own check have already been
incremented by the parallel per-group checks before the batch is rejected. -/
theorem c4_batch_quota_rejection (events : List ParsedEvent)
    (organizationId : String) (tenantMap : String → Option String)
    (duplicates : String → Option ℕ)
    (quotaConfig : String → String → Option QuotaLimitRec)
    (counters : String → String → ℚ) (now : ℤ) (store : List UsageEventRow)
    (baseId : ℕ)
    (hv : (checkQuotas quotaConfig now
        (groupEvents ((freshEvents events duplicates).map
          (fun e => (e, (tenantMap e.tenant_id).getD "")))) counters).1 ≠ []) :
    postBatchQuotaStage events organizationId tenantMap duplicates quotaConfig
        counters now store baseId =
      (BatchOutcome.quotaExceeded
          (checkQuotas quotaConfig now
            (groupEvents ((freshEvents events duplicates).map
              (fun e => (e, (tenantMap e.tenant_id).getD "")))) counters).1,
        (checkQuotas quotaConfig now
          (groupEvents ((freshEvents events duplicates).map
            (fun e => (e, (tenantMap e.tenant_id).getD "")))) counters).2,
        store) ∧
    (∀ g ∈ (checkQuotas quotaConfig now
        (groupEvents ((freshEvents events duplicates).map
          (fun e => (e, (tenantMap e.tenant_id).getD "")))) counters).1,
      (checkQuotas quotaConfig now
        (groupEvents ((freshEvents events duplicates).map
          (fun e => (e, (tenantMap e.tenant_id).getD "")))) counters).2
            g.tenantId g.eventType =
        counters g.tenantId g.eventType) := by
  constructor
  · have hi : (checkQuotas quotaConfig now
        (groupEvents ((freshEvents events duplicates).map
          (fun e => (e, (tenantMap e.tenant_id).getD "")))) counters).1.isEmpty
          = false := by
      rcases hx : (checkQuotas quotaConfig now
        (groupEvents ((freshEvents events duplicates).map
          (fun e => (e, (tenantMap e.tenant_id).getD "")))) counters).1 with
        _ | ⟨h, t⟩
      · exact absurd hx hv
      · simp
    simp [postBatchQuotaStage, hi]
  · intro g hg
    exact checkQuotas_violation_counter quotaConfig now _ counters
      (groupEvents_keys_nodup _) g hg

/-- Witness for C4 amended at the concrete two-group batch: the violating
group's counter is unchanged. -/
theorem c4_batch_quota_rejection_witness :
    (checkQuotas
        (fun t e =>
          if t == "T1" && e == "a" then
            some ⟨100, none, .hard, none, none, 0⟩
          else if t == "T1" && e == "b" then
            some ⟨0, none, .hard, none, none, 0⟩
          else none) 0
        (groupEvents ((freshEvents
          [⟨"a", "t1", 1, none, none⟩, ⟨"b", "t1", 1, none, none⟩]
          (fun _ => none)).map
            (fun e => (e, ((fun _ => some "T1") e.tenant_id).getD ""))))
        (fun _ _ => 0)).2 "T1" "b" = (fun _ _ => (0 : ℚ)) "T1" "b" := by
  have h := (c4_batch_quota_rejection
    [⟨"a", "t1", 1, none, none⟩, ⟨"b", "t1", 1, none, none⟩] "o"
    (fun _ => some "T1") (fun _ => none)
    (fun t e =>
      if t == "T1" && e == "a" then
        some ⟨100, none, .hard, none, none, 0⟩
      else if t == "T1" && e == "b" then
        some ⟨0, none, .hard, none, none, 0⟩
      else none)
    (fun _ _ => 0) 0 [] 10
    (by simp [freshEvents, groupEvents, addGroup, checkQuotas, checkQuotaFast,
      checkQuotaEnhanced, toEnhancedOptions, jsTruthyQ])).2
  have hmem : (⟨"T1", "b", 1, "t1"⟩ : QuotaGroup) ∈
      (checkQuotas
        (fun t e =>
          if t == "T1" && e == "a" then
            some ⟨100, none, .hard, none, none, 0⟩
          else if t == "T1" && e == "b" then
            some ⟨0, none, .hard, none, none, 0⟩
          else none) 0
        (groupEvents ((freshEvents
          [⟨"a", "t1", 1, none, none⟩, ⟨"b", "t1", 1, none, none⟩]
          (fun _ => none)).map
            (fun e => (e, ((fun _ => some "T1") e.tenant_id).getD ""))))
        (fun _ _ => 0)).1 := by
    simp [freshEvents, groupEvents, addGroup, checkQuotas, checkQuotaFast,
      checkQuotaEnhanced, toEnhancedOptions, jsTruthyQ]
  exact h _ hmem

/-! ## Theorems about idempotent ingestion -/

/-- C5 counterexample: a duplicate that slips past the idempotency lookup
(the duplicates map is empty although the store already holds the
(organizationId, idempotencyKey) pair) hits the unique constraint at insert
time; `processSingleEvent` has no recovery branch for that error, so the
route's catch-all answers 500 Internal server error instead of succeeding
with the existing event id. -/
theorem c5_insert_race_counterexample :
    postSingleEvent ⟨"api", "t1", 1, none, some "k"⟩ "o" (fun _ => some "T1")
        (fun _ => none) [⟨7, "T1", "o", "api", 1, 0, some "k", none, none⟩] 8 0 =
      (SingleResponse.serverError,
        [⟨7, "T1", "o", "api", 1, 0, some "k", none, none⟩]) := by
  rfl

/-- C5 amended: a duplicate detected by the cache/store lookup succeeds with
the existing event id, `deduplicated = true` and no new row (so any number
of such ingests keeps returning the same id); the `checkIdempotency` lookup
does find every stored (organizationId, idempotencyKey) match for keys
carried by the batch; but a duplicate that slips past the lookup raises the
unique-constraint violation at insert time, which the route converts to a
500 error response — not a success — with no new row persisted. -/
theorem c5_dedup_lookup_paths (event : ParsedEvent) (organizationId : String)
    (tenantMap : String → Option String) (duplicates : String → Option ℕ)
    (store : List UsageEventRow) (newId : ℕ) (now : ℤ) (k : String) (eid : ℕ)
    (cache : String → Option ℕ) (events : List ParsedEvent) :
    (event.idempotency_key = some k → duplicates k = some eid →
      postSingleEvent event organizationId tenantMap duplicates store newId now =
        (SingleResponse.success eid true, store)) ∧
    (event.idempotency_key = some k → duplicates k = none →
      uniqueViolation store organizationId (some k) = true →
      postSingleEvent event organizationId tenantMap duplicates store newId now =
        (SingleResponse.serverError, store)) ∧
    (∀ e ∈ store, e.organizationId = organizationId →
      e.idempotencyKey = some k →
      (∃ ev ∈ events, ev.idempotency_key = some k) →
      (checkIdempotency cache store organizationId events k).isSome = true) := by
  refine ⟨?_, ?_, ?_⟩
  · intro hk hd
    simp [postSingleEvent, processSingleEvent, hk, hd]
  · intro hk hd huv
    simp [postSingleEvent, processSingleEvent, hk, hd, huv]
  · rintro e he horg hkey ⟨ev, hev, hevk⟩
    have hany : (events.any (fun e2 => e2.idempotency_key == some k)) = true :=
      List.any_eq_true.mpr ⟨ev, hev, by simp [hevk]⟩
    simp only [checkIdempotency, hany, if_true]
    rcases hc : cache k with _ | id
    · have hfind : (store.find? (fun e2 =>
          e2.organizationId == organizationId &&
            e2.idempotencyKey == some k)).isSome := by
        rw [List.find?_isSome]
        exact ⟨e, he, by simp [horg, hkey]⟩
      rcases hf : store.find? (fun e2 =>
          e2.organizationId == organizationId &&
            e2.idempotencyKey == some k) with _ | e2
      · rw [hf] at hfind; simp at hfind
      · simp [hf]
    · simp

/-- Witness for C5 amended: a lookup-detected duplicate returns the existing
id 7 with the deduplicated flag and persists nothing. -/
theorem c5_dedup_lookup_paths_witness :
    postSingleEvent ⟨"api", "t1", 1, none, some "k"⟩ "o" (fun _ => some "T1")
        (fun _ => some 7) [] 8 0 = (SingleResponse.success 7 true, []) :=
  (c5_dedup_lookup_paths ⟨"api", "t1", 1, none, some "k"⟩ "o"
    (fun _ => some "T1") (fun _ => some 7) [] 8 0 "k" 7 (fun _ => none) []).1
    rfl rfl

/-! ## Theorems about the invoice builder: snapshot grouping -/

lemma lookupUsage_addUsage (acc : List (String × ℚ)) (k : String) (q : ℚ)
    (et : String) :
    lookupUsage (addUsage acc k q) et =
      lookupUsage acc et + (if k == et then q else 0) := by
  induction acc with
  | nil => by_cases h : k = et <;> simp [addUsage, lookupUsage, h]
  | cons hd tl ih =>
    obtain ⟨k0, v0⟩ := hd
    by_cases h0 : k0 = k
    · subst h0
      by_cases he : k0 = et
      · subst he; simp [addUsage, lookupUsage]
      · simp [addUsage, lookupUsage, he]
    · by_cases he : k0 = et
      · subst he
        have hket : ¬(k = k0) := fun hc => h0 hc.symm
        simp [addUsage, lookupUsage, h0, hket]
      · simp [addUsage, lookupUsage, h0, he, ih]

lemma lookupUsage_usageByEventType (snaps : List UsageSnapshotRow)
    (et : String) :
    lookupUsage (usageByEventType snaps) et = snapsSum snaps et := by
  suffices h : ∀ acc : List (String × ℚ),
      lookupUsage (snaps.foldl
        (fun acc s => addUsage acc s.eventType s.totalQuantity) acc) et =
        lookupUsage acc et + snapsSum snaps et by
    simpa [usageByEventType, lookupUsage] using h []
  induction snaps with
  | nil => intro acc; simp [snapsSum]
  | cons s rest ih =>
    intro acc
    simp only [List.foldl_cons]
    rw [ih, lookupUsage_addUsage]
    by_cases h : s.eventType = et <;> simp [snapsSum, h] <;> ring

lemma addUsage_keys (acc : List (String × ℚ)) (k : String) (q : ℚ) :
    (addUsage acc k q).map Prod.fst =
      if k ∈ acc.map Prod.fst then acc.map Prod.fst
      else acc.map Prod.fst ++ [k] := by
  induction acc with
  | nil => simp [addUsage]
  | cons hd tl ih =>
    obtain ⟨k0, v0⟩ := hd
    by_cases h : k0 = k
    · subst h; simp [addUsage]
    · have hne : ¬(k = k0) := fun hc => h hc.symm
      simp only [addUsage, List.map_cons, List.mem_cons]
      simp only [beq_iff_eq, h, if_false, List.map_cons, ih]
      by_cases hmem : k ∈ tl.map Prod.fst <;> simp [hmem, hne]

lemma usage_keys_nodup (snaps : List UsageSnapshotRow) :
    ((usageByEventType snaps).map Prod.fst).Nodup := by
  suffices h : ∀ acc : List (String × ℚ), (acc.map Prod.fst).Nodup →
      ((snaps.foldl (fun acc s => addUsage acc s.eventType s.totalQuantity)
        acc).map Prod.fst).Nodup by
    exact h [] (by simp)
  induction snaps with
  | nil => intro acc hacc; simpa using hacc
  | cons s rest ih =>
    intro acc hacc
    refine ih _ ?_
    rw [addUsage_keys]
    split_ifs with hmem
    · exact hacc
    · rw [List.nodup_append]
      exact ⟨hacc, List.nodup_singleton _, fun a ha hb => hmem (by
        simp only [List.mem_singleton] at hb
        rwa [hb] at ha)⟩

/-! ## Theorems about the invoice builder: line items -/

lemma computeLineItem_eventType (et : String) (ts : List PricingTierRow)
    (q : ℚ) : (computeLineItem et ts q).eventType = et := by
  cases ts with
  | nil => rfl
  | cons t rest =>
    by_cases h : (walkTiers q (t :: rest) 0 0 []).2 = [] <;>
      simp [computeLineItem, h]

lemma computeLineItem_quantity (et : String) (ts : List PricingTierRow)
    (q : ℚ) : (computeLineItem et ts q).quantity = q := by
  cases ts with
  | nil => rfl
  | cons t rest =>
    by_cases h : (walkTiers q (t :: rest) 0 0 []).2 = [] <;>
      simp [computeLineItem, h]

lemma lineItemQty_not_mem (tiersFn : String → List PricingTierRow) :
    ∀ (usage : List (String × ℚ)) (et : String), et ∉ usage.map Prod.fst →
      lineItemQty (usage.filterMap (fun u =>
        if 0 < u.2 then some (computeLineItem u.1 (tiersFn u.1) u.2)
        else none)) et = 0 := by
  intro usage
  induction usage with
  | nil => intro et _; rfl
  | cons hd tl ih =>
    intro et hmem
    obtain ⟨k, v⟩ := hd
    simp only [List.map_cons, List.mem_cons, not_or] at hmem
    obtain ⟨hne, hmem2⟩ := hmem
    by_cases hv : 0 < v
    · have hkf : (k == et) = false := by
        rw [beq_eq_false_iff_ne]
        exact fun hc => hne hc.symm
      simp only [List.filterMap_cons, if_pos hv, lineItemQty,
        computeLineItem_eventType, hkf, Bool.false_eq_true, if_false]
      exact ih et hmem2
    · simp only [List.filterMap_cons, if_neg hv]
      exact ih et hmem2

lemma lineItemQty_of_usage (tiersFn : String → List PricingTierRow) :
    ∀ (usage : List (String × ℚ)), (usage.map Prod.fst).Nodup → ∀ et,
      lineItemQty (usage.filterMap (fun u =>
        if 0 < u.2 then some (computeLineItem u.1 (tiersFn u.1) u.2)
        else none)) et =
      (if 0 < lookupUsage usage et then lookupUsage usage et else 0) := by
  intro usage
  induction usage with
  | nil => intro _ et; simp [lineItemQty, lookupUsage]
  | cons hd tl ih =>
    intro hnd et
    obtain ⟨k, v⟩ := hd
    have hnd2 : (tl.map Prod.fst).Nodup := (List.nodup_cons.mp hnd).2
    have hknotin : (k : String) ∉ tl.map Prod.fst := (List.nodup_cons.mp hnd).1
    by_cases hk : k = et
    · subst hk
      by_cases hv : 0 < v
      · simp only [List.filterMap_cons, if_pos hv, lineItemQty,
          computeLineItem_eventType, computeLineItem_quantity, lookupUsage]
        simp [hv]
      · simp only [List.filterMap_cons, if_neg hv, lookupUsage]
        rw [lineItemQty_not_mem tiersFn tl k hknotin]
        simp [hv]
    · have hkf : (k == et) = false := by
        rw [beq_eq_false_iff_ne]; exact hk
      by_cases hv : 0 < v
      · simp only [List.filterMap_cons, if_pos hv, lineItemQty,
          computeLineItem_eventType, hkf, Bool.false_eq_true, if_false,
          lookupUsage]
        exact ih hnd2 et
      · simp only [List.filterMap_cons, if_neg hv, lookupUsage, hkf,
          Bool.false_eq_true, if_false]
        exact ih hnd2 et


/-! ## Theorems about the invoice builder: back-linking -/

lemma linkedSum_backlink (tenantId : String) (a b now : ℤ) (newId : ℕ) :
    ∀ (events : List UsageEventRow),
      (∀ e ∈ events, e.invoiceId ≠ some newId) →
      ∀ et,
        linkedSum (events.map (billEventUpdate tenantId a b now newId)) newId
            et =
          unbilledSum events tenantId a b et := by
  intro events
  induction events with
  | nil => intro _ et; rfl
  | cons e rest ih =>
    intro hfresh et
    have hrest := ih (fun x hx => hfresh x (List.mem_cons_of_mem _ hx)) et
    have hfe : e.invoiceId ≠ some newId := hfresh e (List.mem_cons_self _ _)
    simp only [List.map_cons, linkedSum, unbilledSum]
    rw [hrest]
    congr 1
    by_cases hsel : billEventSelected tenantId a b e = true
    · simp [billEventUpdate, hsel]
    · have hbe : (e.invoiceId == some newId) = false := by
        rw [beq_eq_false_iff_ne]
        intro hc
        exact hfe hc
      simp [billEventUpdate, hsel, hbe]

lemma unbilledSum_nonneg (tenantId : String) (a b : ℤ) (et : String) :
    ∀ events : List UsageEventRow, (∀ e ∈ events, 0 < e.quantity) →
      0 ≤ unbilledSum events tenantId a b et := by
  intro events
  induction events with
  | nil => intro _; simp [unbilledSum]
  | cons e rest ih =>
    intro hq
    simp only [unbilledSum]
    refine add_nonneg ?_ (ih (fun x hx => hq x (List.mem_cons_of_mem _ hx)))
    split_ifs with h
    · exact (hq e (List.mem_cons_self _ _)).le
    · exact le_refl 0

/-- C1 amended: after `generateInvoice`, the quantity on each of the new
invoice's line items equals the per-event-type sum of the quantities of the
events now linked to it, provided the period snapshots are faithful to the
unbilled events of the period (per event type the snapshot total equals the
unbilled event total), event quantities are positive, and the new invoice id
is fresh. Without the faithfulness hypothesis the invariant is false, since
line items come from snapshots while the back-link touches events. -/
theorem c1_audit_invariant (s : BillingState) (tenantId : String)
    (a b now : ℤ) (newId : ℕ)
    (hfresh : ∀ e ∈ s.events, e.invoiceId ≠ some newId)
    (hq : ∀ e ∈ s.events, 0 < e.quantity)
    (hsnap : ∀ et, snapsSum (periodSnapshots s tenantId a b) et =
      unbilledSum s.events tenantId a b et) :
    ∀ et,
      lineItemQty ((generateInvoice s tenantId a b now newId).2.lineItems) et =
        linkedSum ((generateInvoice s tenantId a b now newId).1.events) newId
          et := by
  intro et
  have hlink : linkedSum ((generateInvoice s tenantId a b now newId).1.events)
      newId et = unbilledSum s.events tenantId a b et :=
    linkedSum_backlink tenantId a b now newId s.events hfresh et
  have husage :
      lookupUsage (usageByEventType (periodSnapshots s tenantId a b)) et =
        unbilledSum s.events tenantId a b et := by
    rw [lookupUsage_usageByEventType]; exact hsnap et
  have hnn : 0 ≤ unbilledSum s.events tenantId a b et :=
    unbilledSum_nonneg _ _ _ _ s.events hq
  have hli :
      lineItemQty ((generateInvoice s tenantId a b now newId).2.lineItems) et =
        if 0 < lookupUsage (usageByEventType (periodSnapshots s tenantId a b))
            et then
          lookupUsage (usageByEventType (periodSnapshots s tenantId a b)) et
        else 0 :=
    lineItemQty_of_usage _ _ (usage_keys_nodup _) et
  rw [hli, husage, hlink]
  rcases lt_or_eq_of_le hnn with h | h
  · rw [if_pos h]
  · rw [if_neg (by rw [← h]; exact lt_irrefl 0), ← h]

/-- Witness for C1 amended on a faithful one-snapshot, one-event state. -/
theorem c1_audit_invariant_witness :
    lineItemQty ((generateInvoice
        ⟨[⟨1, "T1", "o", "a", 5, 5, none, none, none⟩],
          [⟨"T1", 5, "a", 5⟩], [⟨"a", 1, 0, none, 1, 0, none⟩], []⟩
        "T1" 0 10 100 1).2.lineItems) "a" =
      linkedSum ((generateInvoice
        ⟨[⟨1, "T1", "o", "a", 5, 5, none, none, none⟩],
          [⟨"T1", 5, "a", 5⟩], [⟨"a", 1, 0, none, 1, 0, none⟩], []⟩
        "T1" 0 10 100 1).1.events) 1 "a" :=
  c1_audit_invariant
    ⟨[⟨1, "T1", "o", "a", 5, 5, none, none, none⟩], [⟨"T1", 5, "a", 5⟩],
      [⟨"a", 1, 0, none, 1, 0, none⟩], []⟩ "T1" 0 10 100 1
    (by intro e he; simp at he; subst he; simp)
    (by intro e he; simp at he; subst he; norm_num)
    (by
      intro et
      by_cases h : "a" = et <;>
        simp [periodSnapshots, snapsSum, unbilledSum, billEventSelected,
          List.filter_cons, h])
    "a"

/-- C1 counterexample: a state with one snapshot (eventType "a", quantity 5)
and no events at all. The generated invoice carries a line item of quantity
5 for "a", but no event is linked to it, so the per-event-type sums diverge
from the line items: the claim is false without a snapshot-faithfulness
assumption. -/
theorem c1_audit_invariant_counterexample :
    lineItemQty ((generateInvoice
        ⟨[], [⟨"T1", 5, "a", 5⟩], [⟨"a", 1, 0, none, 1, 0, none⟩], []⟩
        "T1" 0 10 100 1).2.lineItems) "a" = 5 ∧
    linkedSum ((generateInvoice
        ⟨[], [⟨"T1", 5, "a", 5⟩], [⟨"a", 1, 0, none, 1, 0, none⟩], []⟩
        "T1" 0 10 100 1).1.events) 1 "a" = 0 ∧
    (5 : ℚ) ≠ 0 := by
  refine ⟨?_, rfl, by norm_num⟩
  norm_num [generateInvoice, invoiceLineItems, periodSnapshots,
    usageByEventType, addUsage, lineItemQty, computeLineItem, walkTiers,
    relevantTiersFor, sortTiers, insertTier, tierEffective, List.filter_cons]

/-! ## Theorems about rebuilding an invoice for the same period -/

lemma second_update_fixed (tid : String) (a b now1 now2 : ℤ) (id1 id2 : ℕ)
    (hne : id1 ≠ id2) (e : UsageEventRow) (hfe2 : e.invoiceId ≠ some id2) :
    billEventUpdate tid a b now2 id2 (billEventUpdate tid a b now1 id1 e) =
      billEventUpdate tid a b now1 id1 e ∧
    (billEventUpdate tid a b now1 id1 e).invoiceId ≠ some id2 := by
  by_cases hsel : billEventSelected tid a b e = true
  · constructor
    · have hns : billEventSelected tid a b
          { e with invoiceId := some id1, billedAt := some now1 } = false := by
        simp [billEventSelected]
      simp [billEventUpdate, hsel, hns]
    · simp only [billEventUpdate, hsel, if_true]
      intro hc
      exact hne (by simpa using hc)
  · constructor
    · simp [billEventUpdate, hsel]
    · simp only [billEventUpdate, hsel, Bool.false_eq_true, if_false]
      exact hfe2

/-- C6 counterexample: on a state with one snapshot (eventType "a",
quantity 5), one matching event and one flat tier, building the invoice for
the same period twice produces a second invoice whose line items are the
same non-empty list as the first — not zero line items — because the line
items are recomputed from the unchanged snapshots. -/
theorem c6_second_build_counterexample :
    (generateInvoice (generateInvoice
        ⟨[⟨1, "T1", "o", "a", 5, 5, none, none, none⟩], [⟨"T1", 5, "a", 5⟩],
          [⟨"a", 1, 0, none, 1, 0, none⟩], []⟩
        "T1" 0 10 100 1).1 "T1" 0 10 200 2).2.lineItems =
      [⟨"a", 5, 1, 5, [⟨1, 5, 1, 5⟩]⟩] ∧
    ([] : List InvoiceLineItem) ≠ [⟨"a", 5, 1, 5, [⟨1, 5, 1, 5⟩]⟩] := by
  constructor
  · norm_num [generateInvoice, invoiceLineItems, periodSnapshots,
      usageByEventType, addUsage, computeLineItem, walkTiers,
      relevantTiersFor, sortTiers, insertTier, tierEffective,
      List.filter_cons, List.filterMap_cons]
  · simp

/-- C6 amended: building an invoice twice for the same tenant and period
over unchanged data appends one new invoice each time; the second invoice's
line items are identical to the first's (recomputed from the unchanged
snapshots, not zero), while the back-link step of the second build finds no
events with `invoiceId` still null in the period, so no event is ever
linked to the second invoice. -/
theorem c6_second_build (s : BillingState) (tid : String)
    (a b now1 now2 : ℤ) (id1 id2 : ℕ)
    (hfresh2 : ∀ e ∈ s.events, e.invoiceId ≠ some id2)
    (hne : id1 ≠ id2) :
    ((generateInvoice (generateInvoice s tid a b now1 id1).1 tid a b now2
        id2).2.lineItems = (generateInvoice s tid a b now1 id1).2.lineItems) ∧
    ((generateInvoice s tid a b now1 id1).1.invoices =
      s.invoices ++ [(generateInvoice s tid a b now1 id1).2]) ∧
    ((generateInvoice (generateInvoice s tid a b now1 id1).1 tid a b now2
        id2).1.invoices =
      s.invoices ++ [(generateInvoice s tid a b now1 id1).2,
        (generateInvoice (generateInvoice s tid a b now1 id1).1 tid a b now2
          id2).2]) ∧
    (∀ e ∈ (generateInvoice (generateInvoice s tid a b now1 id1).1 tid a b
        now2 id2).1.events, e.invoiceId ≠ some id2) := by
  refine ⟨rfl, rfl, by simp [generateInvoice], ?_⟩
  intro e he
  have he2 : e ∈ ((s.events.map (billEventUpdate tid a b now1 id1)).map
      (billEventUpdate tid a b now2 id2)) := he
  simp only [List.map_map, List.mem_map, Function.comp] at he2
  obtain ⟨e0, he0, rfl⟩ := he2
  have h := second_update_fixed tid a b now1 now2 id1 id2 hne e0
    (hfresh2 e0 he0)
  rw [h.1]
  exact h.2

/-! ## Theorems about the tier walk -/

lemma walkTiers_eq_specWalkTiers (q : ℚ) :
    ∀ (ts : List PricingTierRow) (x : ℚ), contiguousFrom x ts = true →
    ∀ (total : ℚ) (acc : List TierBreakdownEntry),
      walkTiers q ts (min q x) total acc =
        specWalkTiers q ts (min q x) total acc := by
  intro ts
  induction ts with
  | nil => intro x _ total acc; rfl
  | cons t rest ih =>
    intro x hc total acc
    simp only [contiguousFrom, Bool.and_eq_true, decide_eq_true_eq] at hc
    obtain ⟨hmin, hrest⟩ := hc
    by_cases hxq : q ≤ x
    · have hm : min q x = q := min_eq_left hxq
      simp [walkTiers, specWalkTiers, hm]
    · push_neg at hxq
      have hm : min q x = x := min_eq_right hxq.le
      have hnotle : ¬q ≤ x := not_le.mpr hxq
      cases hmax : t.maxQuantity with
      | none =>
        have hre : rest = [] := by
          rw [hmax] at hrest; simpa using hrest
        subst hre
        have h1 : (0 : ℚ) < q - x := sub_pos.mpr hxq
        have h2 : max 0 (q - x) = q - x := max_eq_right (sub_nonneg.mpr hxq.le)
        simp [walkTiers, specWalkTiers, hm, hmax, hmin, hnotle, h1, h2]
      | some m =>
        rw [hmax] at hrest
        simp only [Bool.and_eq_true, decide_eq_true_eq] at hrest
        obtain ⟨hxm, hcont⟩ := hrest
        have hkey : min (q - x) (max 0 (m - x)) = min q m - x := by
          rw [max_eq_right (sub_nonneg.mpr hxm.le)]
          rcases le_total q m with h | h
          · rw [min_eq_left (by linarith), min_eq_left h]
          · rw [min_eq_right (by linarith), min_eq_right h]
        have hposmin : x < min q m := lt_min hxq hxm
        have hpos : 0 < min q m - x := sub_pos.mpr hposmin
        have hspec : max 0 (min q m - x) = min q m - x := max_eq_right hpos.le
        have hadd : x + (min q m - x) = min q m := by ring
        have hstep := ih m hcont
          (total + (min q m - x) * t.unitPrice)
          (acc ++ [⟨t.tierLevel, min q m - x, t.unitPrice,
            (min q m - x) * t.unitPrice⟩])
        simp only [walkTiers, specWalkTiers, hm, hmax, hmin, hnotle,
          lt_self_iff_false, if_false, max_self, hkey, hspec, hadd, hpos,
          if_true]
        exact hstep

lemma walkTiers_shift (q : ℚ) :
    ∀ (ts : List PricingTierRow) (processed total : ℚ)
      (acc : List TierBreakdownEntry),
      walkTiers q ts processed total acc =
        (total + (walkTiers q ts processed 0 []).1,
          acc ++ (walkTiers q ts processed 0 []).2) := by
  intro ts
  induction ts with
  | nil => intro processed total acc; simp [walkTiers]
  | cons t rest ih =>
    intro processed total acc
    by_cases h0 : q ≤ processed
    · simp [walkTiers, h0]
    · simp only [walkTiers, h0, if_false]
      by_cases h1 : processed < t.minQuantity
      · simp only [if_pos h1]
        by_cases h2 : (0 < (match t.maxQuantity with
            | none => q - t.minQuantity
            | some m => min (q - t.minQuantity) (m - t.minQuantity))) ∧
            t.minQuantity < q
        · simp only [if_pos h2]
          by_cases h3 : 0 < min (match t.maxQuantity with
              | none => q - t.minQuantity
              | some m => min (q - t.minQuantity) (m - t.minQuantity))
              (q - t.minQuantity)
          · simp only [if_pos h3]
            rw [ih _ (total + _) (acc ++ _), ih _ (0 + _) ([] ++ _)]
            simp only [Prod.mk.injEq]
            refine ⟨by ring, by simp⟩
          · simp only [if_neg h3]
            exact ih _ _ _
        · simp only [if_neg h2]
          exact ih _ _ _
      · simp only [if_neg h1]
        by_cases h2 : 0 < (match t.maxQuantity with
            | none => q - processed
            | some m => min (q - processed) (max 0 (m - processed)))
        · simp only [if_pos h2]
          rw [ih _ (total + _) (acc ++ _), ih _ (0 + _) ([] ++ _)]
          simp only [Prod.mk.injEq]
          refine ⟨by ring, by simp⟩
        · simp only [if_neg h2]
          exact ih _ _ _

lemma walkTiers_total_eq_sum (q : ℚ) :
    ∀ (ts : List PricingTierRow) (processed : ℚ),
      (walkTiers q ts processed 0 []).1 =
        ((walkTiers q ts processed 0 []).2.map
          (fun e => e.subtotal)).sum := by
  intro ts
  induction ts with
  | nil => intro processed; simp [walkTiers]
  | cons t rest ih =>
    intro processed
    by_cases h0 : q ≤ processed
    · simp [walkTiers, h0]
    · simp only [walkTiers, h0, if_false]
      by_cases h1 : processed < t.minQuantity
      · simp only [if_pos h1]
        by_cases h2 : (0 < (match t.maxQuantity with
            | none => q - t.minQuantity
            | some m => min (q - t.minQuantity) (m - t.minQuantity))) ∧
            t.minQuantity < q
        · simp only [if_pos h2]
          by_cases h3 : 0 < min (match t.maxQuantity with
              | none => q - t.minQuantity
              | some m => min (q - t.minQuantity) (m - t.minQuantity))
              (q - t.minQuantity)
          · simp only [if_pos h3]
            rw [walkTiers_shift]
            simp only [List.nil_append, List.map_append, List.map_cons,
              List.map_nil, List.sum_append, List.sum_cons, List.sum_nil, ih]
            ring
          · simp only [if_neg h3]
            exact ih _
        · simp only [if_neg h2]
          exact ih _
      · simp only [if_neg h1]
        by_cases h2 : 0 < (match t.maxQuantity with
            | none => q - processed
            | some m => min (q - processed) (max 0 (m - processed)))
        · simp only [if_pos h2]
          rw [walkTiers_shift]
          simp only [List.nil_append, List.map_append, List.map_cons,
            List.map_nil, List.sum_append, List.sum_cons, List.sum_nil, ih]
          ring
        · simp only [if_neg h2]
          exact ih _

lemma computeLineItem_total_eq_sum (et : String) (ts : List PricingTierRow)
    (q : ℚ) :
    (computeLineItem et ts q).totalPrice =
      (((computeLineItem et ts q).tierBreakdown).map
        (fun e => e.subtotal)).sum := by
  cases ts with
  | nil => simp [computeLineItem, walkTiers]
  | cons t rest =>
    by_cases h : (walkTiers q (t :: rest) 0 0 []).2 = []
    · simp [computeLineItem, h]
    · simpa [computeLineItem, h] using walkTiers_total_eq_sum q (t :: rest) 0

lemma computeLineItem_unitPrice (et : String) (ts : List PricingTierRow)
    (q : ℚ) (hq : 0 < q) :
    (computeLineItem et ts q).unitPrice =
      (computeLineItem et ts q).totalPrice / q := by
  cases ts with
  | nil => simp [computeLineItem, hq]
  | cons t rest =>
    by_cases h : (walkTiers q (t :: rest) 0 0 []).2 = [] <;>
      simp [computeLineItem, h, hq]

lemma computeLineItem_fallback (et : String) (t : PricingTierRow)
    (rest : List PricingTierRow) (q : ℚ)
    (h : (walkTiers q (t :: rest) 0 0 []).2 = []) :
    (computeLineItem et (t :: rest) q).totalPrice = q * t.unitPrice := by
  simp [computeLineItem, h]

/-- C2: for tiers that form a contiguous partition of the quantity axis
starting at 0 (the data-model invariant) and a positive total quantity `Q`,
the source's tier walk assigns to each tier exactly
`max(0, min(Q, maxQ) - max(processed, minQ))` at that tier's unit price with
`processed` advancing by the consumed amount; the line item's `totalPrice`
is the sum of the breakdown subtotals and `unitPrice = totalPrice / Q`; the
fallback prices `Q` at the first tier's unit price when no tier matched;
and tiers `[0,1000)` at 0.10 and `[1000,inf)` at 0.05 bill `Q = 1500` as
`1000*0.10 + 500*0.05 = 125.00`. -/
theorem c2_tiered_pricing (ts : List PricingTierRow) (q : ℚ)
    (hts : contiguousFrom 0 ts = true) (hq : 0 < q) :
    walkTiers q ts 0 0 [] = specWalkTiers q ts 0 0 [] ∧
    (∀ et, (computeLineItem et ts q).totalPrice =
      (((computeLineItem et ts q).tierBreakdown).map
        (fun e => e.subtotal)).sum) ∧
    (∀ et, (computeLineItem et ts q).unitPrice =
      (computeLineItem et ts q).totalPrice / q) ∧
    (∀ et t rest, ts = t :: rest → (walkTiers q ts 0 0 []).2 = [] →
      (computeLineItem et ts q).totalPrice = q * t.unitPrice) ∧
    (computeLineItem "api_request"
        [⟨"api_request", 1, 0, some 1000, 1/10, 0, none⟩,
          ⟨"api_request", 2, 1000, none, 1/20, 0, none⟩] 1500).totalPrice =
      125 ∧
    (computeLineItem "api_request"
        [⟨"api_request", 1, 0, some 1000, 1/10, 0, none⟩,
          ⟨"api_request", 2, 1000, none, 1/20, 0, none⟩] 1500).tierBreakdown =
      [⟨1, 1000, 1/10, 100⟩, ⟨2, 500, 1/20, 25⟩] := by
  refine ⟨?_, fun et => computeLineItem_total_eq_sum et ts q,
    fun et => computeLineItem_unitPrice et ts q hq, ?_, ?_, ?_⟩
  · have h := walkTiers_eq_specWalkTiers q ts 0 hts 0 []
    rwa [min_eq_right hq.le] at h
  · rintro et t rest rfl hw
    exact computeLineItem_fallback et t rest q hw
  · norm_num [computeLineItem, walkTiers, min_def, max_def]
    simp
  · norm_num [computeLineItem, walkTiers, min_def, max_def]
    simp

/-- Witness for C2 at the spec's worked example: the two-tier configuration
is a partition of the quantity axis and the walks agree on it. -/
theorem c2_tiered_pricing_witness :
    contiguousFrom 0
        [⟨"api_request", 1, 0, some 1000, 1/10, 0, none⟩,
          ⟨"api_request", 2, 1000, none, 1/20, 0, none⟩] = true ∧
    walkTiers 1500
        [⟨"api_request", 1, 0, some 1000, 1/10, 0, none⟩,
          ⟨"api_request", 2, 1000, none, 1/20, 0, none⟩] 0 0 [] =
      specWalkTiers 1500
        [⟨"api_request", 1, 0, some 1000, 1/10, 0, none⟩,
          ⟨"api_request", 2, 1000, none, 1/20, 0, none⟩] 0 0 [] :=
  ⟨by decide,
    (c2_tiered_pricing
      [⟨"api_request", 1, 0, some 1000, 1/10, 0, none⟩,
        ⟨"api_request", 2, 1000, none, 1/20, 0, none⟩] 1500
      (by decide) (by decide)).1⟩

/-- Witness for C6 amended on the concrete one-snapshot state: the second
invoice repeats the first invoice's line items. -/
theorem c6_second_build_witness :
    (generateInvoice (generateInvoice
        ⟨[⟨1, "T1", "o", "a", 5, 5, none, none, none⟩], [⟨"T1", 5, "a", 5⟩],
          [⟨"a", 1, 0, none, 1, 0, none⟩], []⟩
        "T1" 0 10 100 1).1 "T1" 0 10 200 2).2.lineItems =
      (generateInvoice
        ⟨[⟨1, "T1", "o", "a", 5, 5, none, none, none⟩], [⟨"T1", 5, "a", 5⟩],
          [⟨"a", 1, 0, none, 1, 0, none⟩], []⟩
        "T1" 0 10 100 1).2.lineItems :=
  (c6_second_build
    ⟨[⟨1, "T1", "o", "a", 5, 5, none, none, none⟩], [⟨"T1", 5, "a", 5⟩],
      [⟨"a", 1, 0, none, 1, 0, none⟩], []⟩
    "T1" 0 10 100 200 1 2
    (by intro e he; simp at he; subst he; simp) (by decide)).1

end Usameter
